import Mathlib

/-!
Verification of the Strata/Alpen Vertex consensus core against its source.

Shallow embedding notes:
  * Machine integers (`u32`, `u64`, `usize`) are modelled as `Nat`; the only
    arithmetic the embedded code performs is bounded subtraction on already
    compared values, index halving, and list indexing, none of which can
    overflow 64-bit words on the inputs the code accepts.
  * A Rust `panic!` / failed `assert!` is modelled as `Option.none` (or a
    dedicated `panic` constructor where a function must also distinguish
    `Result` errors).
  * Byte buffers (`Buf32`, serialized transactions, script data pushes) are
    modelled as `List Nat`.
-/

/-! ## Consensus state and write application (crates/state/src/operation.rs) -/

/-- A 32-byte buffer (`Buf32`); hashes and block ids wrap it. -/
abbrev Buf32 := List Nat

/-- ID of an L1 block (wrapper around `Buf32`, `crates/state/src/l1.rs`). -/
abbrev L1BlockId := Buf32

/-- ID of an L2 block (wrapper around `Buf32`, `crates/state/src/id.rs`). -/
abbrev L2BlockId := Buf32

/-- Modelled from the spec: `ConsensusState` (its defining module
`crates/state/src/consensus.rs` is not among the provided sources; the field
list is the spec's §3 description, and matches every field access performed by
`apply_writes_to_state` in `crates/state/src/operation.rs`).  The chain-state
snapshot and the `sync` bookkeeping are opaque to every operation verified
here, so they are type parameters. -/
structure ConsensusState (CS SY : Type) where
  chain_state : CS
  recent_l1_blocks : List L1BlockId
  pending_l2_blocks : List L2BlockId
  buried_l1_height : Nat
  sync : SY
deriving Repr, DecidableEq

/-- `ConsensusWrite` (`crates/state/src/operation.rs`, lines 43..62). -/
inductive ConsensusWrite (CS SY : Type) where
  | Replace (cs : ConsensusState CS SY)
  | ReplaceChainState (ccs : CS)
  | AcceptL2Block (blkid : L2BlockId)
  | RollbackL1BlocksTo (l1blkid : L1BlockId)
  | AcceptL1Block (l1blkid : L1BlockId)
  | UpdateBuried (idx : Nat)
deriving Repr

/-- One iteration of the write loop of `apply_writes_to_state`
(`crates/state/src/operation.rs`, lines 90..126).  `none` models the `panic!`
arms (invalid rollback target, non-increasing buried height, buried height
above the known L1 tip). -/
def applyWrite {CS SY : Type} (state : ConsensusState CS SY) :
    ConsensusWrite CS SY → Option (ConsensusState CS SY)
  | .Replace cs => some cs
  | .ReplaceChainState ccs => some { state with chain_state := ccs }
  | .RollbackL1BlocksTo l1blkid =>
    match state.recent_l1_blocks.findIdx? (· == l1blkid) with
    | none => none
    | some pos =>
      some { state with recent_l1_blocks := state.recent_l1_blocks.take pos }
  | .AcceptL1Block l1blkid =>
    some { state with recent_l1_blocks := state.recent_l1_blocks ++ [l1blkid] }
  | .AcceptL2Block blkid =>
    some { state with pending_l2_blocks := state.pending_l2_blocks ++ [blkid] }
  | .UpdateBuried new_idx =>
    let old_idx := state.buried_l1_height
    if old_idx ≥ new_idx then none
    else
      let diff := new_idx - old_idx
      if diff > state.recent_l1_blocks.length then none
      else
        some { state with
                recent_l1_blocks := state.recent_l1_blocks.drop diff,
                buried_l1_height := new_idx }

/-- `apply_writes_to_state` (`crates/state/src/operation.rs`, lines 86..127):
folds the writes left to right; a panic in any write aborts the whole
application. -/
def apply_writes_to_state {CS SY : Type} (state : ConsensusState CS SY)
    (writes : List (ConsensusWrite CS SY)) : Option (ConsensusState CS SY) :=
  writes.foldlM applyWrite state

theorem findIdx?_eq_none_of_not_mem {l : List L1BlockId} {a : L1BlockId}
    (h : a ∉ l) : l.findIdx? (· == a) = none := by
  induction l with
  | nil => rfl
  | cons x xs ih =>
    rw [List.findIdx?_cons]
    have hx : x ≠ a := fun hxa => h (hxa ▸ List.mem_cons_self x xs)
    simp only [beq_iff_eq, hx, if_false]
    have := ih (fun hm => h (List.mem_cons_of_mem x hm))
    simp [this]

/-- C1: `UpdateBuried(new_idx)` applied through `apply_writes_to_state`: when
`new_idx > buried_l1_height` and `new_idx - buried_l1_height ≤
recent_l1_blocks.len()`, exactly that many blocks are drained from the front
of `recent_l1_blocks` and `buried_l1_height` is set to `new_idx` (a strict
increase); when either condition fails the write panics and nothing is
applied. -/
theorem updateBuried_spec {CS SY : Type} (s : ConsensusState CS SY) (new_idx : Nat) :
    (new_idx > s.buried_l1_height ∧
        new_idx - s.buried_l1_height ≤ s.recent_l1_blocks.length →
      apply_writes_to_state s [ConsensusWrite.UpdateBuried new_idx] =
        some { s with
                recent_l1_blocks :=
                  s.recent_l1_blocks.drop (new_idx - s.buried_l1_height),
                buried_l1_height := new_idx } ∧
      s.buried_l1_height < new_idx) ∧
    (¬ (new_idx > s.buried_l1_height ∧
          new_idx - s.buried_l1_height ≤ s.recent_l1_blocks.length) →
      apply_writes_to_state s [ConsensusWrite.UpdateBuried new_idx] = none) := by
  constructor
  · rintro ⟨h1, h2⟩
    constructor
    · simp only [apply_writes_to_state, List.foldlM, applyWrite]
      rw [if_neg (by omega), if_neg (by omega)]
      rfl
    · exact h1
  · intro h
    simp only [apply_writes_to_state, List.foldlM, applyWrite]
    by_cases h1 : s.buried_l1_height ≥ new_idx
    · rw [if_pos h1]; rfl
    · rw [if_neg h1, if_pos (by omega)]; rfl

/-- Closed instance of `updateBuried_spec`: both the success branch and the
panic branch evaluated on concrete states. -/
theorem updateBuried_spec_witness :
    (apply_writes_to_state
        (⟨0, [[1], [2], [3]], [], 5, ()⟩ : ConsensusState Nat Unit)
        [ConsensusWrite.UpdateBuried 7] =
      some ⟨0, [[3]], [], 7, ()⟩) ∧
    (apply_writes_to_state
        (⟨0, [[1], [2], [3]], [], 5, ()⟩ : ConsensusState Nat Unit)
        [ConsensusWrite.UpdateBuried 4] = none) :=
  ⟨((updateBuried_spec (⟨0, [[1], [2], [3]], [], 5, ()⟩ : ConsensusState Nat Unit)
        7).1 (by simp)).1,
    (updateBuried_spec (⟨0, [[1], [2], [3]], [], 5, ()⟩ : ConsensusState Nat Unit)
        4).2 (by simp)⟩

/-- C2: `RollbackL1BlocksTo(id)` applied through `apply_writes_to_state`: when
`id` first occurs in `recent_l1_blocks` at position `p`, the post-state keeps
exactly the length-`p` prefix (the entry at `p` and everything after it is
removed) and no other field changes; when `id` does not occur at all the write
panics. -/
theorem rollbackL1_spec {CS SY : Type} (s : ConsensusState CS SY) (id : L1BlockId) :
    (∀ p, s.recent_l1_blocks.findIdx? (· == id) = some p →
      apply_writes_to_state s [ConsensusWrite.RollbackL1BlocksTo id] =
        some { s with recent_l1_blocks := s.recent_l1_blocks.take p }) ∧
    (id ∉ s.recent_l1_blocks →
      apply_writes_to_state s [ConsensusWrite.RollbackL1BlocksTo id] = none) := by
  constructor
  · intro p hp
    simp only [apply_writes_to_state, List.foldlM, applyWrite, hp]
    rfl
  · intro h
    simp only [apply_writes_to_state, List.foldlM, applyWrite,
      findIdx?_eq_none_of_not_mem h]
    rfl

/-- Closed instance of `rollbackL1_spec`: rollback to a present id truncates,
rollback to an absent id panics. -/
theorem rollbackL1_spec_witness :
    (apply_writes_to_state
        (⟨0, [[1], [2], [3]], [], 5, ()⟩ : ConsensusState Nat Unit)
        [ConsensusWrite.RollbackL1BlocksTo [2]] =
      some ⟨0, [[1]], [], 5, ()⟩) ∧
    (apply_writes_to_state
        (⟨0, [[1], [2], [3]], [], 5, ()⟩ : ConsensusState Nat Unit)
        [ConsensusWrite.RollbackL1BlocksTo [9]] = none) :=
  ⟨(rollbackL1_spec (⟨0, [[1], [2], [3]], [], 5, ()⟩ : ConsensusState Nat Unit)
        [2]).1 1 (by decide),
    (rollbackL1_spec (⟨0, [[1], [2], [3]], [], 5, ()⟩ : ConsensusState Nat Unit)
        [9]).2 (by decide)⟩

/-! ## Merkle cohashes (crates/primitives/src/utils.rs) -/

/-- A transaction hash in internal byte order, as `Txid::to_byte_array` yields
it. -/
abbrev Hash := List Nat

section Merkle

variable (H : Hash → Hash → Hash)

/-- The pairwise-hash step of `get_cohashes_from_txids`
(`crates/primitives/src/utils.rs`, lines 38..49): `curr_level.chunks(2)`
mapped through `dsha256(left ‖ right)`.  `H` abstracts that pair hash; the
loop only ever applies it to an even-length (padded) level, so the lone-tail
arm never fires there. -/
def hashPairs : List Hash → List Hash
  | a :: b :: rest => H a b :: hashPairs rest
  | _ => []

/-- The odd-level duplication (`utils.rs`, lines 21..24): when the level has
odd length the last entry is pushed again. -/
def padLevel (l : List Hash) : List Hash :=
  if l.length % 2 = 0 then l else l ++ [l.getLast!]

/-- The source's sibling selection (`utils.rs`, lines 26..30):
`if curr_index % 2 == 0 { idx + 1 } else { idx - 1 }`, i.e. `idx XOR 1`. -/
def siblingIdx (i : Nat) : Nat := if i % 2 = 0 then i + 1 else i - 1

theorem hashPairs_length : ∀ l : List Hash, (hashPairs H l).length = l.length / 2
  | [] => by simp [hashPairs]
  | [_] => by simp [hashPairs]
  | _ :: _ :: rest => by
    simp [hashPairs, hashPairs_length rest]
    omega

theorem padLevel_length (l : List Hash) :
    (padLevel l).length = l.length + l.length % 2 := by
  unfold padLevel
  split <;> simp <;> omega

theorem padLevel_even (l : List Hash) : (padLevel l).length % 2 = 0 := by
  rw [padLevel_length]; omega

theorem padLevel_getD (l : List Hash) {k : Nat} (h : k < l.length) :
    (padLevel l).getD k [] = l.getD k [] := by
  unfold padLevel
  split
  · rfl
  · exact List.getD_append _ _ _ _ h

/-- The `while curr_level.len() > 1` loop of `get_cohashes_from_txids`
(`utils.rs`, lines 20..51): pad the level if odd, push the byte-reversed
sibling, fold to the next level, halve the index. -/
def cohashesLoop (curr_level : List Hash) (curr_index : Nat) : List Hash :=
  if _h : curr_level.length ≤ 1 then []
  else
    ((padLevel curr_level).getD (siblingIdx curr_index) []).reverse ::
      cohashesLoop (hashPairs H (padLevel curr_level)) (curr_index / 2)
  termination_by curr_level.length
  decreasing_by simp only [hashPairs_length, padLevel_length]; omega

/-- `get_cohashes_from_txids(txids, index)` (`utils.rs`, lines 13..53).  The
entry assertion `assert!((index as usize) < txids.len())` is the only failure
point; `none` models its panic. -/
def get_cohashes_from_txids (txids : List Hash) (index : Nat) : Option (List Hash) :=
  if index < txids.length then some (cohashesLoop H txids index) else none

/-- The Bitcoin merkle-root formula over internal-byte-order hashes: hash
adjacent pairs, duplicating the last entry of an odd level, until a single
node remains.  This is the reference value the claim's reconstruction is
compared against. -/
def computeMerkleRoot (l : List Hash) : Hash :=
  if _h : l.length ≤ 1 then l.headI
  else computeMerkleRoot (hashPairs H (padLevel l))
  termination_by l.length
  decreasing_by simp only [hashPairs_length, padLevel_length]; omega

/-- The reconstruction fold the claim describes: un-reverse each cohash (they
were byte-reversed on insertion into the proof), combine it on the side
selected by the index parity, and halve the index between levels. -/
def foldProof : Hash → Nat → List Hash → Hash
  | leaf, _, [] => leaf
  | leaf, idx, c :: rest =>
    foldProof (if idx % 2 = 0 then H leaf c.reverse else H c.reverse leaf)
      (idx / 2) rest

theorem hashPairs_getD : ∀ (l : List Hash) (k : Nat), 2 * k + 1 < l.length →
    (hashPairs H l).getD k [] = H (l.getD (2 * k) []) (l.getD (2 * k + 1) [])
  | [], k, h => by simp at h
  | [_], k, h => by simp at h
  | a :: b :: rest, 0, _ => by simp [hashPairs]
  | a :: b :: rest, k + 1, h => by
    have hlt : 2 * k + 1 < rest.length := by simp at h; omega
    have ih := hashPairs_getD rest k hlt
    have e1 : 2 * (k + 1) = 2 * k + 1 + 1 := by omega
    have e2 : 2 * (k + 1) + 1 = 2 * k + 1 + 1 + 1 := by omega
    simp only [hashPairs, e1, e2, List.getD_cons_succ, ih]

theorem cohashes_reconstruct (l : List Hash) (idx : Nat) (h : idx < l.length) :
    foldProof H (l.getD idx []) idx (cohashesLoop H l idx) = computeMerkleRoot H l := by
  rw [cohashesLoop, computeMerkleRoot]
  by_cases h1 : l.length ≤ 1
  · rw [dif_pos h1, dif_pos h1]
    have hidx : idx = 0 := by omega
    subst hidx
    cases l with
    | nil => simp at h
    | cons a t => simp [foldProof]
  · rw [dif_neg h1, dif_neg h1]
    have hP_len := padLevel_length l
    have hP_even := padLevel_even l
    have hNlen := hashPairs_length H (padLevel l)
    have hIH : idx / 2 < (hashPairs H (padLevel l)).length := by omega
    have ih := cohashes_reconstruct (hashPairs H (padLevel l)) (idx / 2) hIH
    simp only [foldProof, List.reverse_reverse]
    have key : (if idx % 2 = 0
          then H (l.getD idx []) ((padLevel l).getD (siblingIdx idx) [])
          else H ((padLevel l).getD (siblingIdx idx) []) (l.getD idx [])) =
        (hashPairs H (padLevel l)).getD (idx / 2) [] := by
      by_cases he : idx % 2 = 0
      · rw [if_pos he]
        have hs : siblingIdx idx = idx + 1 := by unfold siblingIdx; rw [if_pos he]
        have h2 : 2 * (idx / 2) = idx := by omega
        have hlt : 2 * (idx / 2) + 1 < (padLevel l).length := by omega
        rw [hashPairs_getD H (padLevel l) (idx / 2) hlt, h2, hs,
          padLevel_getD l h]
      · rw [if_neg he]
        have hs : siblingIdx idx = idx - 1 := by unfold siblingIdx; rw [if_neg he]
        have h2 : 2 * (idx / 2) = idx - 1 := by omega
        have h4 : idx - 1 + 1 = idx := by omega
        have hlt : 2 * (idx / 2) + 1 < (padLevel l).length := by omega
        rw [hashPairs_getD H (padLevel l) (idx / 2) hlt, h2, h4, hs,
          padLevel_getD l h]
    rw [key]
    exact ih
  termination_by l.length
  decreasing_by simp only [hashPairs_length, padLevel_length]; omega

theorem cohashesLoop_length (l : List Hash) (idx : Nat) :
    (cohashesLoop H l idx).length = Nat.clog 2 l.length := by
  rw [cohashesLoop]
  by_cases h1 : l.length ≤ 1
  · rw [dif_pos h1]
    simp [Nat.clog_of_right_le_one h1]
  · rw [dif_neg h1]
    have ih := cohashesLoop_length (hashPairs H (padLevel l)) (idx / 2)
    simp only [List.length_cons, ih]
    rw [@Nat.clog_of_two_le 2 l.length (by norm_num) (by omega)]
    have hlen : (hashPairs H (padLevel l)).length = (l.length + 2 - 1) / 2 := by
      rw [hashPairs_length, padLevel_length]
      omega
    rw [hlen]
  termination_by l.length
  decreasing_by simp only [hashPairs_length, padLevel_length]; omega

/-- C3: for every txid list `T` and index `i < T.length`,
`get_cohashes_from_txids(T, i)` succeeds with a proof of length
`⌈log₂ T.length⌉`, and folding `T[i]` with the cohashes (sibling side chosen
by index parity, cohashes un-reversed, index halved per level) reconstructs
the Bitcoin merkle root of `T`; the function fails exactly when
`i ≥ T.length`. -/
theorem get_cohashes_spec (T : List Hash) (i : Nat) :
    (∀ proof, get_cohashes_from_txids H T i = some proof →
      proof.length = Nat.clog 2 T.length ∧
      foldProof H (T.getD i []) i proof = computeMerkleRoot H T) ∧
    (get_cohashes_from_txids H T i = none ↔ T.length ≤ i) := by
  constructor
  · intro proof hp
    unfold get_cohashes_from_txids at hp
    by_cases hi : i < T.length
    · rw [if_pos hi] at hp
      cases hp
      exact ⟨cohashesLoop_length H T i, cohashes_reconstruct H T i hi⟩
    · rw [if_neg hi] at hp
      cases hp
  · unfold get_cohashes_from_txids
    split
    · next hi => simp; omega
    · next hi => simp; omega

end Merkle

/-- Closed instance of `get_cohashes_spec`: the proof for leaf 1 of the
four-leaf tree under the concatenation pair-hash, with both conclusions
evaluated. -/
theorem get_cohashes_spec_witness :
    get_cohashes_from_txids (fun a b => a ++ b) [[1], [2], [3], [4]] 1 =
      some [[1], [4, 3]] ∧
    ([[1], [4, 3]] : List Hash).length = Nat.clog 2 4 ∧
    foldProof (fun a b => a ++ b) [2] 1 [[1], [4, 3]] =
      computeMerkleRoot (fun a b => a ++ b) [[1], [2], [3], [4]] := by
  have hsome : get_cohashes_from_txids (fun a b => a ++ b) [[1], [2], [3], [4]] 1 =
      some [[1], [4, 3]] := by
    simp [get_cohashes_from_txids, cohashesLoop, padLevel, siblingIdx, hashPairs]
  have h := (get_cohashes_spec (fun a b => a ++ b) [[1], [2], [3], [4]] 1).1
    [[1], [4, 3]] hsome
  exact ⟨hsome, h.1, h.2⟩

/-! ## L1 tx records (crates/primitives/src/utils.rs, crates/btcio/src/handlers.rs) -/

/-- A Bitcoin transaction as the handler consumes it: its txid in internal
byte order (`Txid::to_byte_array`) and its consensus serialization. -/
structure BTx where
  txid : Hash
  raw : List Nat
deriving Repr, DecidableEq

/-- Modelled from the spec: `L1TxProof` (`crates/primitives/src/l1.rs` is not
among the provided sources): `{position: u32, cohashes: [Buf32]}`. -/
structure L1TxProof where
  position : Nat
  cohashes : List Hash
deriving Repr, DecidableEq

/-- Modelled from the spec: `L1Tx` `{proof, raw_tx}`. -/
structure L1Tx where
  proof : L1TxProof
  tx : List Nat
deriving Repr, DecidableEq

/-- `generate_l1_tx(idx, block)` (`utils.rs`, lines 55..72): asserts the index
is in range (modelled as `none`), then builds the `L1Tx` for the transaction
at `idx` in the block, with its inclusion proof at position `idx`. -/
def generate_l1_tx (H : Hash → Hash → Hash) (idx : Nat) (block : List BTx) :
    Option L1Tx :=
  if idx < block.length then do
    let cohashes ← get_cohashes_from_txids H (block.map (·.txid)) idx
    some ⟨⟨idx, cohashes⟩, (block.getD idx ⟨[], []⟩).raw⟩
  else none

/-- The per-block `L1Tx` list built by `bitcoin_data_handler`
(`crates/btcio/src/handlers.rs`, lines 48..60):
`relevant_txn_indices.iter().enumerate().map(|(i, _)| generate_l1_tx(i as u32, block))`.
The closure discards the relevant transaction index itself and passes the
enumeration counter `i`. -/
def handler_l1txs (H : Hash → Hash → Hash) (block : List BTx)
    (relevant_txn_indices : List Nat) : List (Option L1Tx) :=
  relevant_txn_indices.enum.map (fun p => generate_l1_tx H p.1 block)

/-- C4 evaluated at the failing input: a two-transaction block whose only
relevant transaction is the one at index 1.  The handler persists a record
with proof position 0 and the serialization of transaction 0, not position 1
with transaction 1 as the claim requires. -/
theorem handler_l1txs_uses_enumeration_counter :
    (handler_l1txs (fun a b => a ++ b) [⟨[10], [100]⟩, ⟨[11], [101]⟩] [1]).map
        (Option.map (fun t => (t.proof.position, t.tx))) = [some (0, [100])] ∧
    (0, [100]) ≠ ((1 : Nat), ([101] : List Nat)) := by
  constructor
  · simp [handler_l1txs, generate_l1_tx, get_cohashes_from_txids, cohashesLoop,
      padLevel, siblingIdx, hashPairs, List.enum, List.enumFrom]
  · decide

/-! ## Payload polling and block signing (crates/consensus-logic/src/duty_executor.rs) -/

/-- Modelled from the spec (§4.G): the engine-API payload status values
(`PayloadStatus` is declared in `crates/evmctl/src/engine.rs`, which is not
among the provided sources; `duty_executor.rs` matches on `Ready`). -/
inductive PayloadStatus where
  | Working
  | Ready (pl : List Nat)
  | Invalid
deriving Repr, DecidableEq

/-- Engine errors are opaque to the poll loop. -/
abbrev EngineError := Nat

/-- The loop of `poll_status_loop` (`duty_executor.rs`, lines 269..295), with
real time abstracted to the poll counter: each iteration sleeps `wait` ms and
then polls, so the `k`-th poll observes elapsed time `k * wait`, which the
loop compares against `timeout` after a non-`Ready` poll.  `engine k` is what
`get_payload_status` returns at the `k`-th poll.  Returns the payload (or
`none` on timeout) paired with the number of polls performed.  The fuel
argument is the poll bound `timeout / wait + 1`; the loop never exhausts it
when `wait > 0`. -/
def pollLoopAux (engine : Nat → Except EngineError PayloadStatus)
    (wait timeout : Nat) : Nat → Nat → Except EngineError (Option (List Nat) × Nat)
  | _, 0 => .ok (none, 0)
  | k, fuel + 1 =>
    match engine k with
    | .error e => .error e
    | .ok (.Ready pl) => .ok (some pl, 1)
    | .ok _ =>
      if k * wait > timeout then .ok (none, 1)
      else
        match pollLoopAux engine wait timeout (k + 1) fuel with
        | .error e => .error e
        | .ok (r, n) => .ok (r, n + 1)

/-- `poll_status_loop(job, engine, wait, timeout)` (`duty_executor.rs`, lines
269..295): the result component of the loop. -/
def poll_status_loop (engine : Nat → Except EngineError PayloadStatus)
    (wait timeout : Nat) : Except EngineError (Option (List Nat)) :=
  match pollLoopAux engine wait timeout 1 (timeout / wait + 1) with
  | .error e => .error e
  | .ok (r, _) => .ok r

/-- Number of `get_payload_status` calls the loop performs (0 when the loop
aborts with an engine error). -/
def poll_count (engine : Nat → Except EngineError PayloadStatus)
    (wait timeout : Nat) : Nat :=
  match pollLoopAux engine wait timeout 1 (timeout / wait + 1) with
  | .error _ => 0
  | .ok (_, n) => n

/-- Failure modes of `sign_block` the claim observes. -/
inductive SignError where
  | engine (e : EngineError)
  | timeout
deriving Repr, DecidableEq

/-- `sign_block` (`duty_executor.rs`, lines 187..260) projected onto what the
claim observes: `blocks_at_slot` abstracts
`l2_provider.get_blocks_at_height(slot)` (non-empty means republish: return
`Ok` without building anything); otherwise the payload wait decides the
outcome — `Err` on engine error, `Err("EL block assembly timed out")` when
the poll loop returns no payload, and a stored block carrying the returned
payload on `Ready`.  `ok none` = no new block stored, `ok (some pl)` = a
block with exec payload `pl` was stored.  The loop constants are the
source's `wait = 100ms`, `timeout = 3000ms`. -/
def sign_block (blocks_at_slot : List L2BlockId)
    (engine : Nat → Except EngineError PayloadStatus)
    (wait timeout : Nat) : Except SignError (Option (List Nat)) :=
  if blocks_at_slot ≠ [] then .ok none
  else
    match poll_status_loop engine wait timeout with
    | .error e => .error (.engine e)
    | .ok none => .error .timeout
    | .ok (some pl) => .ok (some pl)

theorem pollLoopAux_none (engine : Nat → Except EngineError PayloadStatus)
    (fuel : Nat) :
    ∀ k, 1 ≤ k → k + fuel = 32 →
    (∀ j, k ≤ j → j ≤ 31 →
      engine j = Except.ok PayloadStatus.Working ∨
      engine j = Except.ok PayloadStatus.Invalid) →
    pollLoopAux engine 100 3000 k fuel = Except.ok (none, fuel) := by
  induction fuel with
  | zero => intro k hk hsum h; rfl
  | succ fuel ih =>
    intro k hk hsum h
    have hev := h k le_rfl (by omega)
    rcases hev with he | he
    · simp only [pollLoopAux, he]
      by_cases hk31 : k * 100 > 3000
      · rw [if_pos hk31]
        have hf : fuel = 0 := by omega
        subst hf
        rfl
      · rw [if_neg hk31]
        rw [ih (k + 1) (by omega) (by omega) (fun j hj hj2 => h j (by omega) hj2)]
    · simp only [pollLoopAux, he]
      by_cases hk31 : k * 100 > 3000
      · rw [if_pos hk31]
        have hf : fuel = 0 := by omega
        subst hf
        rfl
      · rw [if_neg hk31]
        rw [ih (k + 1) (by omega) (by omega) (fun j hj hj2 => h j (by omega) hj2)]

theorem pollLoopAux_ready (engine : Nat → Except EngineError PayloadStatus)
    (fuel : Nat) :
    ∀ k m pl, k ≤ m → m ≤ 31 → k + fuel = 32 →
    (∀ j, k ≤ j → j < m →
      engine j = Except.ok PayloadStatus.Working ∨
      engine j = Except.ok PayloadStatus.Invalid) →
    engine m = Except.ok (PayloadStatus.Ready pl) →
    ∃ n, pollLoopAux engine 100 3000 k fuel = Except.ok (some pl, n) := by
  induction fuel with
  | zero =>
    intro k m pl hkm hm31 hsum h hm
    exact absurd (hkm.trans hm31) (by omega)
  | succ fuel ih =>
    intro k m pl hkm hm31 hsum h hm
    by_cases hkm' : k = m
    · subst hkm'
      refine ⟨1, ?_⟩
      simp only [pollLoopAux, hm]
    · have hev := h k le_rfl (by omega)
      have hnot : ¬ k * 100 > 3000 := by omega
      obtain ⟨n, hn⟩ := ih (k + 1) m pl (by omega) hm31 (by omega)
        (fun j hj hj2 => h j (by omega) hj2) hm
      rcases hev with he | he
      · refine ⟨n + 1, ?_⟩
        simp only [pollLoopAux, he]
        rw [if_neg hnot, hn]
      · refine ⟨n + 1, ?_⟩
        simp only [pollLoopAux, he]
        rw [if_neg hnot, hn]

/-- C5 (amended): in the `SignBlock` payload wait loop with the source's
constants (`wait = 100ms`, `timeout = 3000ms`, hence at most
`3000/100 + 1 = 31` polls): if some poll within the window returns `Ready`
and all earlier polls returned `Working` or `Invalid`, the worker proceeds
with that payload and stores the block; if no poll in the window returns
`Ready`, the duty fails with the timeout error and no block is stored.  An
`Invalid` status does NOT stop the polling — the loop only distinguishes
`Ready`, so a permanently-`Invalid` engine is polled through the entire
window (31 polls) and the duty then fails via the timeout, not via an
invalid-payload path. -/
theorem sign_block_poll_spec (engine : Nat → Except EngineError PayloadStatus) :
    (∀ m pl, 1 ≤ m → m ≤ 31 →
      (∀ j, 1 ≤ j → j < m →
        engine j = Except.ok PayloadStatus.Working ∨
        engine j = Except.ok PayloadStatus.Invalid) →
      engine m = Except.ok (PayloadStatus.Ready pl) →
      sign_block [] engine 100 3000 = Except.ok (some pl)) ∧
    ((∀ j, 1 ≤ j → j ≤ 31 →
        engine j = Except.ok PayloadStatus.Working ∨
        engine j = Except.ok PayloadStatus.Invalid) →
      sign_block [] engine 100 3000 = Except.error SignError.timeout) ∧
    ((∀ j, 1 ≤ j → engine j = Except.ok PayloadStatus.Invalid) →
      poll_count engine 100 3000 = 31 ∧
      sign_block [] engine 100 3000 = Except.error SignError.timeout) := by
  refine ⟨?_, ?_, ?_⟩
  · intro m pl hm1 hm31 hbefore hm
    obtain ⟨n, hn⟩ := pollLoopAux_ready engine (3000 / 100 + 1) 1 m pl hm1 hm31
      (by omega) (fun j hj hj2 => hbefore j hj hj2) hm
    simp only [sign_block, poll_status_loop, hn]
    rfl
  · intro h
    have hn := pollLoopAux_none engine (3000 / 100 + 1) 1 (by omega) (by omega)
      (fun j hj hj2 => h j hj hj2)
    simp only [sign_block, poll_status_loop, hn]
    rfl
  · intro h
    have hn := pollLoopAux_none engine (3000 / 100 + 1) 1 (by omega) (by omega)
      (fun j hj _ => Or.inr (h j hj))
    constructor
    · simp only [poll_count, hn]
    · simp only [sign_block, poll_status_loop, hn]
      rfl

/-- C5 counterexample to the claim as stated: an engine that reports
`Invalid` at every poll is not abandoned after the first poll — the loop
performs all 31 polls of the window before failing, so "on `Invalid` the
worker stops polling" is false on the code. -/
theorem poll_invalid_keeps_polling :
    poll_count (fun _ => Except.ok PayloadStatus.Invalid) 100 3000 = 31 ∧
    (31 : Nat) ≠ 1 :=
  ⟨by rfl, by decide⟩

/-- Closed instance of `sign_block_poll_spec` at the permanently-`Invalid`
engine. -/
theorem sign_block_poll_spec_witness :
    poll_count (fun _ => Except.ok PayloadStatus.Invalid) 100 3000 = 31 ∧
    sign_block [] (fun _ => Except.ok PayloadStatus.Invalid) 100 3000 =
      Except.error SignError.timeout :=
  (sign_block_poll_spec (fun _ => Except.ok PayloadStatus.Invalid)).2.2
    (fun _ _ => rfl)

/-! ## Duty dispatch (crates/consensus-logic/src/duty_executor.rs) -/

/-- One `DutyBatch` iteration of `duty_dispatch_task`
(`duty_executor.rs`, lines 123..154), projected onto duty ids: `pending` is
the key set of the `pending_duties` map (in insertion order) and the second
component collects the ids spawned for this batch.  The loop skips any id
already present and inserts the ids it spawns; nothing is ever removed —
the reaping of completed workers is only the `TODO` comment at line 135. -/
def dispatch_batch (pending : List Nat) (duties : List Nat) :
    List Nat × List Nat :=
  duties.foldl
    (fun acc did =>
      if did ∈ acc.1 then acc else (acc.1 ++ [did], acc.2 ++ [did]))
    (pending, [])

/-- Running `duty_dispatch_task` over a stream of batches, collecting each
batch's spawn list. -/
def dispatch_run (pending : List Nat) : List (List Nat) → List Nat × List (List Nat)
  | [] => (pending, [])
  | b :: rest =>
    let step := dispatch_batch pending b
    let next := dispatch_run step.1 rest
    (next.1, step.2 :: next.2)

/-- C6 evaluated at the failing input: duty id 5 is dispatched in the first
batch; its worker then completes; the second batch contains id 5 again.  The
dispatcher never removes completed entries from `pending_duties`, so the
second batch spawns nothing — the claim's reaping would have spawned `[5]`
again. -/
theorem dispatch_never_reaps :
    dispatch_run [] [[5], [5]] = ([5], [[5], []]) ∧
    ([[5], []] : List (List Nat)) ≠ [[5], [5]] := by
  constructor
  · rfl
  · decide

/-! ## Checkpoint proof submission (sequencer/src/rpc_server.rs) -/

/-- Modelled from the spec: the checkpoint proving status
(`PendingProof → ProofReady` state machine; the entry type is declared
outside the provided sources). -/
inductive CheckpointProvingStatus where
  | PendingProof
  | ProofReady
deriving Repr, DecidableEq

/-- Modelled from the spec: the checkpoint-entry fields
`submit_checkpoint_proof` reads and writes (proof bytes, parsed checkpoint
transition, proving status). -/
structure CheckpointEntry where
  proof : List Nat
  checkpoint_transition : List Nat
  proving_status : CheckpointProvingStatus
deriving Repr, DecidableEq

/-- The RPC error categories `submit_checkpoint_proof` can surface; database
and serialization failures are collapsed into `Other`. -/
inductive CheckpointRpcError where
  | Other
  | MissingCheckpointInDb (idx : Nat)
  | InvalidProof (idx : Nat)
  | ProofAlreadyCreated (idx : Nat)
deriving Repr, DecidableEq

/-- `submit_checkpoint_proof(idx, proofbytes, transition)`
(`sequencer/src/rpc_server.rs`, lines 666..708).  The checkpoint store is a
map `Nat → Option CheckpointEntry`; `verify` abstracts
`verify_proof(entry.into_batch_checkpoint(), rollup_params)` — note the
source verifies the entry fetched from the database, before the
pending-status check; `parse_transition` abstracts the borsh decoding of the
transition bytes.  On success the updated store (after
`put_checkpoint_and_notify`) is returned; an error performs no write. -/
def submit_checkpoint_proof (db : Nat → Option CheckpointEntry)
    (verify_proofs : Bool) (verify : CheckpointEntry → Bool)
    (parse_transition : List Nat → Option (List Nat))
    (idx : Nat) (proofbytes transition : List Nat) :
    Except CheckpointRpcError (Nat → Option CheckpointEntry) :=
  match db idx with
  | none => .error (.MissingCheckpointInDb idx)
  | some entry =>
    if verify_proofs && !(verify entry) then .error (.InvalidProof idx)
    else if entry.proving_status ≠ .PendingProof then
      .error (.ProofAlreadyCreated idx)
    else
      match parse_transition transition with
      | none => .error .Other
      | some ct =>
        .ok (fun j => if j = idx then
              some { entry with
                      proof := proofbytes,
                      checkpoint_transition := ct,
                      proving_status := .ProofReady }
            else db j)

/-- C7: submitting a proof for an existing `PendingProof` entry (whose
verification passes when `verify_proofs` is set, and whose transition bytes
decode) stores the proof and transition and marks the entry `ProofReady`,
leaving every other index untouched; any subsequent submission for the same
index (with the stored entry still passing the pre-check verification)
returns `ProofAlreadyCreated` and writes nothing. -/
theorem submit_checkpoint_proof_spec
    (db : Nat → Option CheckpointEntry) (verify_proofs : Bool)
    (verify : CheckpointEntry → Bool)
    (parse_transition : List Nat → Option (List Nat))
    (idx : Nat) (proofbytes transition ct : List Nat) (e : CheckpointEntry)
    (hdb : db idx = some e)
    (hpend : e.proving_status = .PendingProof)
    (hver : verify_proofs = true → verify e = true)
    (hparse : parse_transition transition = some ct) :
    ∃ db', submit_checkpoint_proof db verify_proofs verify parse_transition
        idx proofbytes transition = .ok db' ∧
      db' idx = some ⟨proofbytes, ct, .ProofReady⟩ ∧
      (∀ j, j ≠ idx → db' j = db j) ∧
      (∀ pb2 t2,
        (verify_proofs = true →
          verify ⟨proofbytes, ct, .ProofReady⟩ = true) →
        submit_checkpoint_proof db' verify_proofs verify parse_transition
          idx pb2 t2 = .error (.ProofAlreadyCreated idx)) := by
  have hvc : (verify_proofs && !(verify e)) = false := by
    cases hv : verify_proofs with
    | false => rfl
    | true => simp [hver hv]
  refine ⟨fun j => if j = idx then
      some ⟨proofbytes, ct, .ProofReady⟩ else db j, ?_, ?_, ?_, ?_⟩
  · simp [submit_checkpoint_proof, hdb, hvc, hpend, hparse]
  · simp
  · intro j hj
    simp [hj]
  · intro pb2 t2 hver2
    have hvc2 : (verify_proofs &&
        !(verify ⟨proofbytes, ct, .ProofReady⟩)) = false := by
      cases hv : verify_proofs with
      | false => rfl
      | true => simp [hver2 hv]
    simp [submit_checkpoint_proof, hvc2]

/-- Closed instance of `submit_checkpoint_proof_spec` at index 7 with a
trivially-true verifier and identity transition decoding. -/
theorem submit_checkpoint_proof_spec_witness :
    ∃ db', submit_checkpoint_proof
        (fun j => if j = 7 then some ⟨[], [], .PendingProof⟩ else none)
        true (fun _ => true) some 7 [1] [2] = .ok db' ∧
      db' 7 = some ⟨[1], [2], .ProofReady⟩ ∧
      (∀ j, j ≠ 7 →
        db' j = (fun j => if j = 7 then
          some (⟨[], [], .PendingProof⟩ : CheckpointEntry) else none) j) ∧
      (∀ pb2 t2,
        (true = true → (fun _ => true) (⟨[1], [2], .ProofReady⟩ : CheckpointEntry) = true) →
        submit_checkpoint_proof db' true (fun _ => true) some 7 pb2 t2 =
          .error (.ProofAlreadyCreated 7)) :=
  submit_checkpoint_proof_spec
    (fun j => if j = 7 then some ⟨[], [], .PendingProof⟩ else none)
    true (fun _ => true) some 7 [1] [2] [2] ⟨[], [], .PendingProof⟩
    (by simp) rfl (fun _ => rfl) rfl

/-! ## Deposit request parsing (crates/tx-parser/src/deposit/deposit_request.rs) -/

/-- A decoded Bitcoin script instruction: an opcode or a data push.  The
`bitcoin` crate's `Instructions` iterator yields exactly this sequence for
the well-formed scripts this parser consumes (scripts assembled through
`ScriptBuf` pushes). -/
inductive Instr where
  | op (code : Nat)
  | push (data : List Nat)
deriving Repr, DecidableEq

/-- The `OP_RETURN` opcode byte. -/
def OP_RETURN : Nat := 0x6a

/-- Modelled from the spec: `next_op` (`crates/tx-parser/src/utils.rs` is not
among the provided sources): advance the instruction iterator by one and
return the opcode when that instruction is one. -/
def next_op : List Instr → Option Nat × List Instr
  | [] => (none, [])
  | .op c :: rest => (some c, rest)
  | .push _ :: rest => (none, rest)

/-- Modelled from the spec: `next_bytes`: advance the iterator by one and
return the data when that instruction is a push. -/
def next_bytes : List Instr → Option (List Nat) × List Instr
  | [] => (none, [])
  | .push d :: rest => (some d, rest)
  | .op _ :: rest => (none, rest)

/-- Modelled from the spec: the `DepositTxConfig` fields the parser uses
(the type is declared outside the provided sources): rollup magic bytes and
the expected destination-address length. -/
structure DepositTxConfig where
  magic_bytes : List Nat
  address_length : Nat
deriving Repr, DecidableEq

/-- Modelled from the spec: `DepositParseError` (declared in the tx-parser
error module, outside the provided sources), constructors as the spec lists
them. -/
inductive DepositParseError where
  | NoOpReturn
  | NoData
  | MagicBytesMismatch
  | LeafHashLenMismatch
  | InvalidDestAddress (len : Nat)
deriving Repr, DecidableEq

/-- `DepositRequestScriptInfo` (tx-parser common module): tap control-block
hash and execution-environment address bytes. -/
structure DepositRequestScriptInfo where
  tap_ctrl_blk_hash : List Nat
  ee_bytes : List Nat
deriving Repr, DecidableEq

/-- Result of running the parser: `Ok`, a `DepositParseError`, or the
`assert!(data.len() < 80)` panic of `deposit_request.rs` line 58. -/
inductive ParseOutcome (α : Type) where
  | ok (a : α)
  | err (e : DepositParseError)
  | panicked
deriving Repr, DecidableEq

/-- `parse_deposit_request_script(script, config)` (`deposit_request.rs`,
lines 43..87). -/
def parse_deposit_request_script (script : List Instr)
    (config : DepositTxConfig) : ParseOutcome DepositRequestScriptInfo :=
  if (next_op script).1 ≠ some OP_RETURN then .err .NoOpReturn
  else
    match (next_bytes (next_op script).2).1 with
    | none => .err .NoData
    | some data =>
      if ¬ data.length < 80 then .panicked
      else
        let magic_len := config.magic_bytes.length
        if data.length < magic_len ∨ data.take magic_len ≠ config.magic_bytes
        then .err .MagicBytesMismatch
        else
          let data2 := data.drop magic_len
          if data2.length < 32 then .err .LeafHashLenMismatch
          else
            let address := data2.drop 32
            if address.length ≠ config.address_length then
              .err (.InvalidDestAddress address.length)
            else
              .ok ⟨data2.take 32, address⟩

/-- The script of the round-trip claim: `OP_RETURN` followed by a single
data push of `magic ‖ tap-leaf hash ‖ destination address`. -/
def build_deposit_request_script (magic tapHash addr : List Nat) : List Instr :=
  [.op OP_RETURN, .push (magic ++ (tapHash ++ addr))]

/-- C8 (amended): with the data push strictly under the source's
`assert!(data.len() < 80)` bound, building the OP_RETURN script from
`(magic, 32-byte tap-leaf hash, address of the configured length)` and
parsing it recovers exactly those fields; and each listed error is returned
in exactly the circumstance the claim names (for data pushes under the
assert bound). -/
theorem parse_deposit_request_script_spec (config : DepositTxConfig) :
    (∀ tapHash addr, tapHash.length = 32 →
      addr.length = config.address_length →
      config.magic_bytes.length + 32 + addr.length < 80 →
      parse_deposit_request_script
          (build_deposit_request_script config.magic_bytes tapHash addr)
          config =
        .ok ⟨tapHash, addr⟩) ∧
    (∀ script, (∀ rest, script ≠ Instr.op OP_RETURN :: rest) →
      parse_deposit_request_script script config = .err .NoOpReturn) ∧
    (∀ rest, (∀ d rest2, rest ≠ Instr.push d :: rest2) →
      parse_deposit_request_script (Instr.op OP_RETURN :: rest) config =
        .err .NoData) ∧
    (∀ data rest, data.length < 80 →
      data.take config.magic_bytes.length ≠ config.magic_bytes →
      parse_deposit_request_script
          (Instr.op OP_RETURN :: Instr.push data :: rest) config =
        .err .MagicBytesMismatch) ∧
    (∀ data rest, data.length < 80 →
      data.take config.magic_bytes.length = config.magic_bytes →
      data.length - config.magic_bytes.length < 32 →
      parse_deposit_request_script
          (Instr.op OP_RETURN :: Instr.push data :: rest) config =
        .err .LeafHashLenMismatch) ∧
    (∀ data rest, data.length < 80 →
      data.take config.magic_bytes.length = config.magic_bytes →
      32 ≤ data.length - config.magic_bytes.length →
      data.length - config.magic_bytes.length - 32 ≠ config.address_length →
      parse_deposit_request_script
          (Instr.op OP_RETURN :: Instr.push data :: rest) config =
        .err (.InvalidDestAddress
          (data.length - config.magic_bytes.length - 32))) := by
  refine ⟨?_, ?_, ?_, ?_, ?_, ?_⟩
  · intro tapHash addr htap haddr hlen
    have h1 : (config.magic_bytes ++ (tapHash ++ addr)).take
        config.magic_bytes.length = config.magic_bytes := List.take_left _ _
    have h2 : (config.magic_bytes ++ (tapHash ++ addr)).drop
        config.magic_bytes.length = tapHash ++ addr := List.drop_left _ _
    have h3 : (tapHash ++ addr).take 32 = tapHash := by
      rw [← htap]; exact List.take_left _ _
    have h4 : (tapHash ++ addr).drop 32 = addr := by
      rw [← htap]; exact List.drop_left _ _
    have hl80 : (config.magic_bytes ++ (tapHash ++ addr)).length < 80 := by
      simp [htap]; omega
    have hlml : ¬ (config.magic_bytes ++ (tapHash ++ addr)).length <
        config.magic_bytes.length := by
      simp
    have hl32 : ¬ (tapHash ++ addr).length < 32 := by
      simp [htap]
    simp [parse_deposit_request_script, build_deposit_request_script,
      next_op, next_bytes, h1, h2, h3, h4, hl80, hlml, hl32, haddr]
    rw [if_neg (by omega), if_neg (by omega)]
  · intro script h
    cases script with
    | nil => simp [parse_deposit_request_script, next_op]
    | cons i rest =>
      cases i with
      | push d => simp [parse_deposit_request_script, next_op]
      | op c =>
        have hc : c ≠ OP_RETURN := by
          intro hc
          exact h rest (by rw [hc])
        simp [parse_deposit_request_script, next_op, hc]
  · intro rest h
    cases rest with
    | nil => simp [parse_deposit_request_script, next_op, next_bytes]
    | cons j rest2 =>
      cases j with
      | op c2 => simp [parse_deposit_request_script, next_op, next_bytes]
      | push d => exact absurd rfl (h d rest2)
  · intro data rest h80 hmagic
    simp [parse_deposit_request_script, next_op, next_bytes, h80, hmagic]
  · intro data rest h80 hmagic h32
    have hge : config.magic_bytes.length ≤ data.length := by
      have := congrArg List.length hmagic
      simp [List.length_take] at this
      omega
    have hcond : ¬ (data.length < config.magic_bytes.length ∨
        data.take config.magic_bytes.length ≠ config.magic_bytes) := by
      push_neg
      exact ⟨by omega, hmagic⟩
    have hlen2 : (data.drop config.magic_bytes.length).length < 32 := by
      simp [List.length_drop]
      omega
    simp [parse_deposit_request_script, next_op, next_bytes, h80, hcond, hlen2]
    intro hge32
    exact absurd hge32 (by omega)
  · intro data rest h80 hmagic h32 haddr
    have hge : config.magic_bytes.length ≤ data.length := by
      have := congrArg List.length hmagic
      simp [List.length_take] at this
      omega
    have hcond : ¬ (data.length < config.magic_bytes.length ∨
        data.take config.magic_bytes.length ≠ config.magic_bytes) := by
      push_neg
      exact ⟨by omega, hmagic⟩
    have hlen2 : ¬ (data.drop config.magic_bytes.length).length < 32 := by
      simp [List.length_drop]
      omega
    simp [parse_deposit_request_script, next_op, next_bytes, h80, hcond]
    rw [if_neg (by omega), if_neg (by omega)]
    have he : data.length - (config.magic_bytes.length + 32) =
        data.length - config.magic_bytes.length - 32 := by omega
    rw [he]

/-- C8 counterexample to the claim as stated ("for every config"): with
4 magic bytes and a configured address length of 44, the built push is
exactly 80 bytes, which trips `assert!(data.len() < 80)` — the parser
panics instead of round-tripping. -/
theorem parse_roundtrip_panics_at_80 :
    parse_deposit_request_script
        (build_deposit_request_script [0, 0, 0, 0] (List.replicate 32 1)
          (List.replicate 44 2))
        ⟨[0, 0, 0, 0], 44⟩ = .panicked ∧
    (ParseOutcome.panicked : ParseOutcome DepositRequestScriptInfo) ≠
      .ok ⟨List.replicate 32 1, List.replicate 44 2⟩ := by
  constructor
  · decide
  · decide

/-- Closed instance of `parse_deposit_request_script_spec`: a 4-byte magic,
20-byte address config round-trips. -/
theorem parse_deposit_request_script_spec_witness :
    parse_deposit_request_script
        (build_deposit_request_script [1, 2, 3, 4] (List.replicate 32 7)
          (List.replicate 20 9))
        ⟨[1, 2, 3, 4], 20⟩ =
      .ok ⟨List.replicate 32 7, List.replicate 20 9⟩ :=
  (parse_deposit_request_script_spec ⟨[1, 2, 3, 4], 20⟩).1
    (List.replicate 32 7) (List.replicate 20 9)
    (by simp) (by simp) (by simp)

/-- C9 (amended): the parser is total — returns `Ok` or a listed parse
error, never the assert panic — on every script whose OP_RETURN data push
is strictly under 80 bytes (a push of exactly 80 bytes trips the assert). -/
theorem parse_total_below_80 (config : DepositTxConfig) (script : List Instr)
    (h : ∀ d rest, script = Instr.op OP_RETURN :: Instr.push d :: rest →
      d.length < 80) :
    parse_deposit_request_script script config ≠ .panicked := by
  cases script with
  | nil => simp [parse_deposit_request_script, next_op]
  | cons i rest =>
    cases i with
    | push d => simp [parse_deposit_request_script, next_op]
    | op c =>
      by_cases hc : c = OP_RETURN
      · subst hc
        cases rest with
        | nil => simp [parse_deposit_request_script, next_op, next_bytes]
        | cons j rest2 =>
          cases j with
          | op c2 => simp [parse_deposit_request_script, next_op, next_bytes]
          | push d =>
            have hd := h d rest2 rfl
            simp only [parse_deposit_request_script, next_op, next_bytes]
            rw [if_neg (by simp)]
            rw [if_neg (by omega)]
            split
            · simp
            · split
              · simp
              · split
                · simp
                · simp
      · simp [parse_deposit_request_script, next_op, hc]

/-- C9 counterexample to the claim as stated ("at most 80 bytes, including
exactly 80"): an OP_RETURN with a push of exactly 80 bytes panics. -/
theorem parse_panics_at_exactly_80 :
    parse_deposit_request_script
        [Instr.op OP_RETURN, Instr.push (List.replicate 80 0)]
        ⟨[0, 0, 0, 0], 20⟩ = .panicked := by
  decide

/-- Closed instance of `parse_total_below_80`. -/
theorem parse_total_below_80_witness :
    parse_deposit_request_script
        [Instr.op OP_RETURN, Instr.push [1, 2, 3]] ⟨[1, 2], 0⟩ ≠ .panicked :=
  parse_total_below_80 ⟨[1, 2], 0⟩ [Instr.op OP_RETURN, Instr.push [1, 2, 3]]
    (by
      intro d rest heq
      simp at heq
      rw [← heq.1]
      decide)

/-- A transaction output: satoshi value and locking script. -/
structure TxOut where
  value : Nat
  script_pubkey : List Instr
deriving Repr, DecidableEq

/-- The transaction fields the extractor reads. -/
structure Transaction where
  output : List TxOut
deriving Repr, DecidableEq

/-- `DepositRequestInfo` (`crates/state` tx module interface): amount,
destination address bytes, take-back tap-leaf hash. -/
structure DepositRequestInfo where
  amt : Nat
  address : List Nat
  take_back_leaf_hash : List Nat
deriving Repr, DecidableEq

/-- Outcome of `extract_deposit_request_info`: `found` models
`Some(DepositRequestInfo)`, `nothing` models `None`, `panicked` propagates a
parser panic (the `?`/`ok()?` operators cannot catch it). -/
inductive ExtractOutcome where
  | found (info : DepositRequestInfo)
  | nothing
  | panicked
deriving Repr, DecidableEq

/-- `extract_deposit_request_info(tx, config)` (`deposit_request.rs`, lines
16..39).  `check_bridge_offer_output` abstracts the bridge-offer validation
from the tx-parser common module (outside the provided sources); `?` on its
`Result` maps a failed check to `None`. -/
def extract_deposit_request_info
    (check_bridge_offer_output : Transaction → DepositTxConfig → Bool)
    (tx : Transaction) (config : DepositTxConfig) : ExtractOutcome :=
  match tx.output[0]?, tx.output[1]? with
  | some output_0, some output_1 =>
    match parse_deposit_request_script output_1.script_pubkey config with
    | .panicked => .panicked
    | .err _ => .nothing
    | .ok info =>
      if check_bridge_offer_output tx config then
        .found ⟨output_0.value, info.ee_bytes, info.tap_ctrl_blk_hash⟩
      else .nothing
  | _, _ => .nothing

/-- C10: a transaction with fewer than two outputs yields `None` (no error,
no panic); and whenever the extractor yields `Some`, the amount is output
0's satoshi value and the hash/address are exactly what
`parse_deposit_request_script` recovered from output 1's `script_pubkey`. -/
theorem extract_deposit_request_info_spec
    (check : Transaction → DepositTxConfig → Bool) (tx : Transaction)
    (config : DepositTxConfig) :
    (tx.output.length < 2 →
      extract_deposit_request_info check tx config = .nothing) ∧
    (∀ info, extract_deposit_request_info check tx config = .found info →
      ∃ o0 o1, tx.output[0]? = some o0 ∧ tx.output[1]? = some o1 ∧
        info.amt = o0.value ∧
        parse_deposit_request_script o1.script_pubkey config =
          .ok ⟨info.take_back_leaf_hash, info.address⟩) := by
  constructor
  · intro hlen
    have h1 : tx.output[1]? = none := by
      rw [List.getElem?_eq_none_iff]
      omega
    cases h0 : tx.output[0]? with
    | none => simp [extract_deposit_request_info, h0, h1]
    | some o0 => simp [extract_deposit_request_info, h0, h1]
  · intro info hfound
    rcases h0 : tx.output[0]? with _ | o0
    · simp [extract_deposit_request_info, h0] at hfound
    · rcases h1 : tx.output[1]? with _ | o1
      · simp [extract_deposit_request_info, h0, h1] at hfound
      · refine ⟨o0, o1, rfl, rfl, ?_⟩
        rcases hp : parse_deposit_request_script o1.script_pubkey config with
          pinfo | e | _
        · by_cases hc : check tx config
          · simp [extract_deposit_request_info, h0, h1, hp, hc] at hfound
            subst hfound
            simp [hp]
          · simp [extract_deposit_request_info, h0, h1, hp, hc] at hfound
        · simp [extract_deposit_request_info, h0, h1, hp] at hfound
        · simp [extract_deposit_request_info, h0, h1, hp] at hfound

/-- Closed instance of `extract_deposit_request_info_spec`: a transaction
with no outputs yields `None`. -/
theorem extract_deposit_request_info_spec_witness :
    extract_deposit_request_info (fun _ _ => true) ⟨[]⟩ ⟨[1, 2, 3, 4], 20⟩ =
      .nothing :=
  (extract_deposit_request_info_spec (fun _ _ => true) ⟨[]⟩
    ⟨[1, 2, 3, 4], 20⟩).1 (by decide)
